import Mathlib

/-!
Verification of the garment mockup compositing engine in
`src/mockup_generator.py`.

The Python source is shallowly embedded below: PIL/NumPy images become a
structure with a width, a height, and a pixel-lookup function; the float
arithmetic of the blending, warping and placement code is modelled exactly
over the rationals; Python integer truncation, NumPy slicing, OpenCV border
reflection and PIL fixed-point alpha blending are modelled with their exact
integer semantics.
-/

namespace MockupGen

/-- An 8-bit RGBA pixel. Channels are natural numbers; the 8-bit range is
captured by the predicate `RGBA.InRange` below. -/
structure RGBA where
  r : Nat
  g : Nat
  b : Nat
  a : Nat
deriving DecidableEq

/-- A raster image as PIL exposes it: width, height, and a pixel lookup
function taking the row index first, then the column index. -/
structure Img where
  width : Nat
  height : Nat
  pix : Nat → Nat → RGBA

/-- All four channels fit in 8 bits. -/
def RGBA.InRange (p : RGBA) : Prop :=
  p.r ≤ 255 ∧ p.g ≤ 255 ∧ p.b ≤ 255 ∧ p.a ≤ 255

instance (p : RGBA) : Decidable p.InRange := by
  unfold RGBA.InRange; infer_instance

/-- Every pixel inside the image bounds fits in 8 bits. -/
def Img.Wf (img : Img) : Prop :=
  ∀ i, i < img.height → ∀ j, j < img.width → (img.pix i j).InRange

instance (img : Img) : Decidable img.Wf := by
  unfold Img.Wf; infer_instance

/-- Extensional equality of images: equal dimensions and equal pixels at
every in-bounds coordinate. -/
def Img.eqOn (u v : Img) : Prop :=
  u.width = v.width ∧ u.height = v.height ∧
    ∀ i, i < v.height → ∀ j, j < v.width → u.pix i j = v.pix i j

instance (u v : Img) : Decidable (Img.eqOn u v) := by
  unfold Img.eqOn; infer_instance

/-! ## PlacementSolver (lines 208 to 213 of the batch loop)

`scale = min(sw / design.width, sh / design.height, 1.0) * padding_ratio`,
`new_width = int(design.width * scale)`,
`new_height = int(design.height * scale)`.
The float arithmetic is modelled exactly over the rationals; Python's
`int()` truncates toward zero, which on the nonnegative values arising here
(`padding_ratio` comes from a slider over `[0.1, 1.0]`) is the floor. -/

/-- The uniform scale factor computed at line 210. -/
def placementScale (sw sh dw dh : Nat) (padding : ℚ) : ℚ :=
  min (min ((sw : ℚ) / (dw : ℚ)) ((sh : ℚ) / (dh : ℚ))) 1 * padding

/-- Line 211: `new_width = int(design.width * scale)`. -/
def scaledW (sw sh dw dh : Nat) (padding : ℚ) : Nat :=
  (Int.floor ((dw : ℚ) * placementScale sw sh dw dh padding)).toNat

/-- Line 212: `new_height = int(design.height * scale)`. -/
def scaledH (sw sh dw dh : Nat) (padding : ℚ) : Nat :=
  (Int.floor ((dh : ℚ) * placementScale sw sh dw dh padding)).toNat

/-- Rounding to the nearest integer (the rounding the spec's
"round(graphicSize * scale)" asks for), to be compared with the code's
truncating conversion. -/
def roundNearest (q : ℚ) : ℤ :=
  Int.floor (q + 1/2)

/-- The scale factor is nonnegative whenever the padding ratio is. -/
theorem placementScale_nonneg (sw sh dw dh : Nat) (padding : ℚ)
    (hp : 0 ≤ padding) : 0 ≤ placementScale sw sh dw dh padding := by
  unfold placementScale
  have h1 : (0 : ℚ) ≤ (sw : ℚ) / (dw : ℚ) :=
    div_nonneg (Nat.cast_nonneg sw) (Nat.cast_nonneg dw)
  have h2 : (0 : ℚ) ≤ (sh : ℚ) / (dh : ℚ) :=
    div_nonneg (Nat.cast_nonneg sh) (Nat.cast_nonneg dh)
  have h3 : (0 : ℚ) ≤ min (min ((sw : ℚ) / (dw : ℚ)) ((sh : ℚ) / (dh : ℚ))) 1 :=
    le_min (le_min h1 h2) (by norm_num)
  exact mul_nonneg h3 hp

/-- The minimum with 1 is at most 1, so the scale is at most the padding. -/
theorem placementScale_le_padding (sw sh dw dh : Nat) (padding : ℚ)
    (hp : 0 ≤ padding) : placementScale sw sh dw dh padding ≤ padding := by
  unfold placementScale
  have h1 : min (min ((sw : ℚ) / (dw : ℚ)) ((sh : ℚ) / (dh : ℚ))) 1 ≤ 1 :=
    min_le_right _ _
  calc min (min ((sw : ℚ) / (dw : ℚ)) ((sh : ℚ) / (dh : ℚ))) 1 * padding
      ≤ 1 * padding := mul_le_mul_of_nonneg_right h1 hp
    _ = padding := one_mul padding

/-- C4: for positive graphic dimensions and `paddingRatio` in `(0, 1]`, the
placement scale factor `min(box.width/graphic.width,
box.height/graphic.height, 1.0) * paddingRatio` never exceeds the padding
ratio, and the scaled width and height never exceed the graphic's original
pixel dimensions. -/
theorem placement_scale_and_dims_bounded (sw sh dw dh : Nat) (padding : ℚ)
    (hdw : 0 < dw) (hdh : 0 < dh) (hp0 : 0 < padding) (hp1 : padding ≤ 1) :
    placementScale sw sh dw dh padding ≤ padding ∧
    scaledW sw sh dw dh padding ≤ dw ∧
    scaledH sw sh dw dh padding ≤ dh := by
  have hp : (0 : ℚ) ≤ padding := le_of_lt hp0
  have hle : placementScale sw sh dw dh padding ≤ padding :=
    placementScale_le_padding sw sh dw dh padding hp
  have hle1 : placementScale sw sh dw dh padding ≤ 1 := le_trans hle hp1
  refine ⟨hle, ?_, ?_⟩
  · have hq : (dw : ℚ) * placementScale sw sh dw dh padding ≤ (dw : ℚ) := by
      calc (dw : ℚ) * placementScale sw sh dw dh padding
          ≤ (dw : ℚ) * 1 := mul_le_mul_of_nonneg_left hle1 (Nat.cast_nonneg dw)
        _ = (dw : ℚ) := mul_one _
    have hfloor : Int.floor ((dw : ℚ) * placementScale sw sh dw dh padding) ≤ (dw : ℤ) := by
      have := Int.floor_mono hq
      simpa using this
    exact Int.toNat_le.mpr hfloor
  · have hq : (dh : ℚ) * placementScale sw sh dw dh padding ≤ (dh : ℚ) := by
      calc (dh : ℚ) * placementScale sw sh dw dh padding
          ≤ (dh : ℚ) * 1 := mul_le_mul_of_nonneg_left hle1 (Nat.cast_nonneg dh)
        _ = (dh : ℚ) := mul_one _
    have hfloor : Int.floor ((dh : ℚ) * placementScale sw sh dw dh padding) ≤ (dh : ℤ) := by
      have := Int.floor_mono hq
      simpa using this
    exact Int.toNat_le.mpr hfloor

/-- Witness for `placement_scale_and_dims_bounded` at a 50×50 box, a 100×100
graphic and padding 1/2. -/
theorem placement_scale_and_dims_bounded_witness :
    placementScale 50 50 100 100 (1/2) ≤ 1/2 ∧
    scaledW 50 50 100 100 (1/2) ≤ 100 ∧
    scaledH 50 50 100 100 (1/2) ≤ 100 :=
  placement_scale_and_dims_bounded 50 50 100 100 (1/2)
    (by norm_num) (by norm_num) (by norm_num) (by norm_num)

/-- C6 counterexample: with a 3×3 bounding box, a 3×3 graphic and padding
1/2 the scale is 1/2, so `graphicSize * scale = 3/2`; the code's
`int(3 * 0.5)` gives 1, while rounding to the nearest integer gives 2.
The code truncates rather than rounds. -/
theorem scaled_dims_not_rounded_counterexample :
    scaledW 3 3 3 3 (1/2) = 1 ∧
    roundNearest ((3 : ℚ) * placementScale 3 3 3 3 (1/2)) = 2 ∧
    scaledW 3 3 3 3 (1/2) ≠ (roundNearest ((3 : ℚ) * placementScale 3 3 3 3 (1/2))).toNat := by
  refine ⟨?_, ?_, ?_⟩ <;> norm_num [scaledW, placementScale, roundNearest] <;> decide

/-- C6 amended: the scaled dimensions are `int(graphicSize * scale)`, the
truncation of the product, i.e. the greatest integer not exceeding
`graphicSize * scale` — not the nearest integer. -/
theorem scaled_dims_are_truncation (sw sh dw dh : Nat) (padding : ℚ)
    (hp : 0 ≤ padding) :
    ((scaledW sw sh dw dh padding : ℚ) ≤ (dw : ℚ) * placementScale sw sh dw dh padding ∧
      (dw : ℚ) * placementScale sw sh dw dh padding < (scaledW sw sh dw dh padding : ℚ) + 1) ∧
    ((scaledH sw sh dw dh padding : ℚ) ≤ (dh : ℚ) * placementScale sw sh dw dh padding ∧
      (dh : ℚ) * placementScale sw sh dw dh padding < (scaledH sw sh dw dh padding : ℚ) + 1) := by
  have hs : 0 ≤ placementScale sw sh dw dh padding :=
    placementScale_nonneg sw sh dw dh padding hp
  constructor
  · have hq : (0 : ℚ) ≤ (dw : ℚ) * placementScale sw sh dw dh padding :=
      mul_nonneg (Nat.cast_nonneg dw) hs
    have hfl : (0 : ℤ) ≤ Int.floor ((dw : ℚ) * placementScale sw sh dw dh padding) :=
      Int.le_floor.mpr (by simpa using hq)
    have hcast : ((scaledW sw sh dw dh padding : ℤ) : ℚ) =
        ((Int.floor ((dw : ℚ) * placementScale sw sh dw dh padding) : ℤ) : ℚ) := by
      unfold scaledW
      rw [Int.toNat_of_nonneg hfl]
    constructor
    · have h1 := Int.floor_le ((dw : ℚ) * placementScale sw sh dw dh padding)
      calc (scaledW sw sh dw dh padding : ℚ)
          = ((Int.floor ((dw : ℚ) * placementScale sw sh dw dh padding) : ℤ) : ℚ) := by
            push_cast at hcast ⊢; exact hcast
        _ ≤ (dw : ℚ) * placementScale sw sh dw dh padding := h1
    · have h2 := Int.lt_floor_add_one ((dw : ℚ) * placementScale sw sh dw dh padding)
      calc (dw : ℚ) * placementScale sw sh dw dh padding
          < ((Int.floor ((dw : ℚ) * placementScale sw sh dw dh padding) : ℤ) : ℚ) + 1 := h2
        _ = (scaledW sw sh dw dh padding : ℚ) + 1 := by
            push_cast at hcast ⊢; rw [hcast]
  · have hq : (0 : ℚ) ≤ (dh : ℚ) * placementScale sw sh dw dh padding :=
      mul_nonneg (Nat.cast_nonneg dh) hs
    have hfl : (0 : ℤ) ≤ Int.floor ((dh : ℚ) * placementScale sw sh dw dh padding) :=
      Int.le_floor.mpr (by simpa using hq)
    have hcast : ((scaledH sw sh dw dh padding : ℤ) : ℚ) =
        ((Int.floor ((dh : ℚ) * placementScale sw sh dw dh padding) : ℤ) : ℚ) := by
      unfold scaledH
      rw [Int.toNat_of_nonneg hfl]
    constructor
    · have h1 := Int.floor_le ((dh : ℚ) * placementScale sw sh dw dh padding)
      calc (scaledH sw sh dw dh padding : ℚ)
          = ((Int.floor ((dh : ℚ) * placementScale sw sh dw dh padding) : ℤ) : ℚ) := by
            push_cast at hcast ⊢; exact hcast
        _ ≤ (dh : ℚ) * placementScale sw sh dw dh padding := h1
    · have h2 := Int.lt_floor_add_one ((dh : ℚ) * placementScale sw sh dw dh padding)
      calc (dh : ℚ) * placementScale sw sh dw dh padding
          < ((Int.floor ((dh : ℚ) * placementScale sw sh dw dh padding) : ℤ) : ℚ) + 1 := h2
        _ = (scaledH sw sh dw dh padding : ℚ) + 1 := by
            push_cast at hcast ⊢; rw [hcast]

/-- Witness for `scaled_dims_are_truncation` at the box 3×3, graphic 3×3,
padding 1/2 input, where the truncation is strict. -/
theorem scaled_dims_are_truncation_witness :
    ((scaledW 3 3 3 3 (1/2) : ℚ) ≤ (3 : ℚ) * placementScale 3 3 3 3 (1/2) ∧
      (3 : ℚ) * placementScale 3 3 3 3 (1/2) < (scaledW 3 3 3 3 (1/2) : ℚ) + 1) ∧
    ((scaledH 3 3 3 3 (1/2) : ℚ) ≤ (3 : ℚ) * placementScale 3 3 3 3 (1/2) ∧
      (3 : ℚ) * placementScale 3 3 3 3 (1/2) < (scaledH 3 3 3 3 (1/2) : ℚ) + 1) :=
  scaled_dims_are_truncation 3 3 3 3 (1/2) (by norm_num)

/-- C10 counterexample: a 1000×1000 graphic, a present 1×1 bounding box and
padding 9/20 = 0.45 (all satisfying the claim's hypotheses) give
`scale = (1/1000) * (9/20)`, so `int(1000 * scale) = int(0.45) = 0`: both
scaled dimensions are 0 and the subsequent resize is not well-defined. -/
theorem scaled_dims_can_be_zero_counterexample :
    (0 : ℚ) < 9/20 ∧ (9 : ℚ)/20 ≤ 1 ∧
    scaledW 1 1 1000 1000 (9/20) = 0 ∧
    scaledH 1 1 1000 1000 (9/20) = 0 := by
  refine ⟨by norm_num, by norm_num, ?_, ?_⟩ <;>
    norm_num [scaledW, scaledH, placementScale]

/-- C10 amended: the scaled width (resp. height) is at least 1 exactly when
the graphic's width (resp. height) times the scale factor is at least 1;
in general it can be 0, so the resize is well-defined only under that
condition. -/
theorem scaled_dims_positive_iff (sw sh dw dh : Nat) (padding : ℚ) :
    (1 ≤ scaledW sw sh dw dh padding ↔
      1 ≤ (dw : ℚ) * placementScale sw sh dw dh padding) ∧
    (1 ≤ scaledH sw sh dw dh padding ↔
      1 ≤ (dh : ℚ) * placementScale sw sh dw dh padding) := by
  have key : ∀ q : ℚ, (1 ≤ (Int.floor q).toNat ↔ 1 ≤ q) := by
    intro q
    constructor
    · intro h
      have h1 : (1 : ℤ) ≤ Int.floor q := by omega
      have := Int.le_floor.mp h1
      simpa using this
    · intro h
      have h1 : (1 : ℤ) ≤ Int.floor q := Int.le_floor.mpr (by simpa using h)
      omega
  exact ⟨key _, key _⟩

/-! ## Shared numeric helpers -/

/-- PIL's RGB to luminance conversion,
`L = (R*19595 + G*38470 + B*7471 + 2^15) >> 16` (the fixed-point form of
`0.299 R + 0.587 G + 0.114 B` used by `convert("L")`). -/
def pilLum (p : RGBA) : Nat :=
  (p.r * 19595 + p.g * 38470 + p.b * 7471 + 32768) / 65536

/-- Quantization of a float channel back to 8 bits by rounding to the
nearest integer, clamped to the byte range; exact on integer inputs, which
are the only ones the theorems below evaluate it at. -/
def roundByte (q : ℚ) : Nat :=
  (max 0 (min 255 (Int.floor (q + 1/2)))).toNat

/-- Sum of `f` over `0, ..., n-1`. -/
def natSum (n : Nat) (f : Nat → ℚ) : ℚ :=
  ((List.range n).map f).sum

/-! ## BlendCompositor (lines 122 to 134, `blend_design_with_shirt`) -/

/-- PIL's exact division-by-255 blend primitive (`MULDIV255` in Paste.c):
`t = a*b + 128; ((t >> 8) + t) >> 8`, which equals `a*b/255` rounded to the
nearest integer for 8-bit operands. -/
def muldiv255 (a b : Nat) : Nat :=
  ((a * b + 128) / 256 + (a * b + 128)) / 256

/-- One channel of PIL's masked `paste`:
`BLEND(mask, in1, in2) = MULDIV255(in1, 255 - mask) + MULDIV255(in2, mask)`. -/
def chanBlend (dst src m : Nat) : Nat :=
  muldiv255 dst (255 - m) + muldiv255 src m

/-- One channel of the multiply at lines 127 to 131:
`(shirt/255) * (design/255)`, scaled back by 255 and truncated by
`astype(np.uint8)`; the float product is modelled exactly, giving
`s * d / 255` rounded down. -/
def multiplyChan (s d : Nat) : Nat :=
  s * d / 255

theorem muldiv255_zero (c : Nat) : muldiv255 c 0 = 0 := by
  simp [muldiv255]

theorem muldiv255_255 (c : Nat) (hc : c ≤ 255) : muldiv255 c 255 = c := by
  unfold muldiv255; omega

theorem multiplyChan_le (s d : Nat) (hs : s ≤ 255) (hd : d ≤ 255) :
    multiplyChan s d ≤ 255 := by
  unfold multiplyChan
  have h : s * d ≤ 255 * 255 := Nat.mul_le_mul hs hd
  calc s * d / 255 ≤ 255 * 255 / 255 := Nat.div_le_div_right h
    _ = 255 := by norm_num

/-- Lines 122 to 134, `blend_design_with_shirt(shirt, design, x, y)`: crop
the destination region, convert both operands to RGB, multiply channel-wise
in normalized space, and paste the result back into `shirt` through the
design's alpha band (`shirt.paste(blended, (x, y), design)`). PIL's `paste`
writes into the `shirt` buffer and the function then returns that same
object, so the image built below is at once the returned image and the
post-call contents of the caller's `shirt` argument. The paste is clipped
to the destination bounds; at every destination pixel the paste writes, the
cropped region pixel is the destination pixel itself (the crop's
zero-padding only covers coordinates outside the destination, which the
paste never writes). The pasted RGB image is converted to the destination's
RGBA mode with alpha 255, and PIL blends every band through the mask with
`BLEND`. -/
def blend_design_with_shirt (shirt design : Img) (x y : Int) : Img :=
  Img.mk shirt.width shirt.height (fun i j =>
    if i < shirt.height ∧ j < shirt.width ∧
       x ≤ (j : Int) ∧ (j : Int) < x + design.width ∧
       y ≤ (i : Int) ∧ (i : Int) < y + design.height then
      let s := shirt.pix i j
      let d := design.pix ((i : Int) - y).toNat ((j : Int) - x).toNat
      RGBA.mk
        (chanBlend s.r (multiplyChan s.r d.r) d.a)
        (chanBlend s.g (multiplyChan s.g d.g) d.a)
        (chanBlend s.b (multiplyChan s.b d.b) d.a)
        (chanBlend s.a 255 d.a)
    else shirt.pix i j)

/-- Modelled from the spec: the auto blend-mode-with-opacity policy of
section 4.5, which is absent from `src/mockup_generator.py`. It samples the
destination region's mean brightness; if the mean exceeds 0.6 it multiplies
(`region * graphic`), otherwise it applies the screen formula
`1 - (1 - region) * (1 - graphic)`; the blended value is combined with the
destination by `(1 - a) * region + a * blended` where
`a = graphicAlpha * opacity`, and quantized back to 8 bits by rounding. -/
def autoBlendWithOpacity (shirt design : Img) (x y : Int) (opacity : ℚ) : Img :=
  let dw := design.width
  let dh := design.height
  let region : Nat → Nat → RGBA := fun i j =>
    if 0 ≤ y + (i : Int) ∧ y + (i : Int) < shirt.height ∧
       0 ≤ x + (j : Int) ∧ x + (j : Int) < shirt.width then
      shirt.pix (y + (i : Int)).toNat (x + (j : Int)).toNat
    else RGBA.mk 0 0 0 0
  let mean : ℚ :=
    natSum dh (fun i => natSum dw (fun j => (pilLum (region i j) : ℚ) / 255)) /
      ((dh : ℚ) * (dw : ℚ))
  let blendCh : Nat → Nat → ℚ := fun rc dc =>
    let rq : ℚ := (rc : ℚ) / 255
    let dq : ℚ := (dc : ℚ) / 255
    if 3/5 < mean then rq * dq else 1 - (1 - rq) * (1 - dq)
  Img.mk shirt.width shirt.height (fun i j =>
    if i < shirt.height ∧ j < shirt.width ∧
       x ≤ (j : Int) ∧ (j : Int) < x + dw ∧
       y ≤ (i : Int) ∧ (i : Int) < y + dh then
      let s := shirt.pix i j
      let d := design.pix ((i : Int) - y).toNat ((j : Int) - x).toNat
      let alpha : ℚ := (d.a : ℚ) / 255 * opacity
      RGBA.mk
        (roundByte (((1 - alpha) * ((s.r : ℚ) / 255) + alpha * blendCh s.r d.r) * 255))
        (roundByte (((1 - alpha) * ((s.g : ℚ) / 255) + alpha * blendCh s.g d.g) * 255))
        (roundByte (((1 - alpha) * ((s.b : ℚ) / 255) + alpha * blendCh s.b d.b) * 255))
        s.a
    else shirt.pix i j)

/-- A 1×1 all-black opaque garment. -/
def shirtBlack : Img := Img.mk 1 1 (fun _ _ => RGBA.mk 0 0 0 255)

/-- A 1×1 all-white opaque graphic. -/
def designWhite : Img := Img.mk 1 1 (fun _ _ => RGBA.mk 255 255 255 255)

/-- A 1×1 all-gray opaque garment. -/
def shirtGray : Img := Img.mk 1 1 (fun _ _ => RGBA.mk 100 100 100 255)

/-- A 1×1 all-black opaque graphic. -/
def designBlack : Img := Img.mk 1 1 (fun _ _ => RGBA.mk 0 0 0 255)

/-- C1 counterexample: the compositor in the source has a single behaviour,
the multiply-paste of `blend_design_with_shirt`; on an all-black
destination region it multiplies to black, while the auto
blend-mode-with-opacity policy would screen to white. The auto mode is not
an available behaviour of the compositor. -/
theorem auto_blend_mode_not_available_counterexample :
    (blend_design_with_shirt shirtBlack designWhite 0 0).pix 0 0 = RGBA.mk 0 0 0 255 ∧
    (autoBlendWithOpacity shirtBlack designWhite 0 0 1).pix 0 0 = RGBA.mk 255 255 255 255 ∧
    (blend_design_with_shirt shirtBlack designWhite 0 0).pix 0 0 ≠
      (autoBlendWithOpacity shirtBlack designWhite 0 0 1).pix 0 0 := by
  have h1 : (blend_design_with_shirt shirtBlack designWhite 0 0).pix 0 0 =
      RGBA.mk 0 0 0 255 := by decide
  have h2 : (autoBlendWithOpacity shirtBlack designWhite 0 0 1).pix 0 0 =
      RGBA.mk 255 255 255 255 := by
    norm_num [autoBlendWithOpacity, shirtBlack, designWhite, natSum, pilLum, roundByte,
      List.range_succ, List.range_zero]
    decide
  exact ⟨h1, h2, by rw [h1, h2]; decide⟩

/-- C1 amended: the compositor implements exactly the multiply-paste
policy: at any destination pixel inside the pasted footprint, where the
graphic is fully opaque the result is the channel-wise multiply
`shirt * design / 255` with alpha 255, and where the graphic is fully
transparent the destination pixel is left untouched. -/
theorem blend_is_multiply_paste (shirt design : Img) (x y : Int) (i j : Nat)
    (hi : i < shirt.height) (hj : j < shirt.width)
    (hin : x ≤ (j : Int) ∧ (j : Int) < x + design.width ∧
           y ≤ (i : Int) ∧ (i : Int) < y + design.height)
    (hs : (shirt.pix i j).InRange)
    (hd : (design.pix ((i : Int) - y).toNat ((j : Int) - x).toNat).InRange) :
    ((design.pix ((i : Int) - y).toNat ((j : Int) - x).toNat).a = 255 →
      (blend_design_with_shirt shirt design x y).pix i j =
        RGBA.mk
          (multiplyChan (shirt.pix i j).r
            (design.pix ((i : Int) - y).toNat ((j : Int) - x).toNat).r)
          (multiplyChan (shirt.pix i j).g
            (design.pix ((i : Int) - y).toNat ((j : Int) - x).toNat).g)
          (multiplyChan (shirt.pix i j).b
            (design.pix ((i : Int) - y).toNat ((j : Int) - x).toNat).b)
          255) ∧
    ((design.pix ((i : Int) - y).toNat ((j : Int) - x).toNat).a = 0 →
      (blend_design_with_shirt shirt design x y).pix i j = shirt.pix i j) := by
  unfold blend_design_with_shirt
  simp only
  rw [if_pos ⟨hi, hj, hin.1, hin.2.1, hin.2.2.1, hin.2.2.2⟩]
  obtain ⟨hsr, hsg, hsb, hsa⟩ := hs
  obtain ⟨hdr, hdg, hdb, hda⟩ := hd
  constructor
  · intro ha
    rw [ha]
    unfold chanBlend
    rw [muldiv255_255 _ (multiplyChan_le _ _ hsr hdr),
        muldiv255_255 _ (multiplyChan_le _ _ hsg hdg),
        muldiv255_255 _ (multiplyChan_le _ _ hsb hdb),
        muldiv255_255 255 (by norm_num)]
    simp [muldiv255_zero]
  · intro ha
    rw [ha]
    unfold chanBlend
    rw [muldiv255_255 _ hsr, muldiv255_255 _ hsg, muldiv255_255 _ hsb,
        muldiv255_255 _ hsa]
    simp [muldiv255_zero]

/-- Witness for `blend_is_multiply_paste`: a gray 1×1 garment and an opaque
black 1×1 graphic at the origin multiply to black. -/
theorem blend_is_multiply_paste_witness :
    (blend_design_with_shirt shirtGray designBlack 0 0).pix 0 0 =
      RGBA.mk (multiplyChan 100 0) (multiplyChan 100 0) (multiplyChan 100 0) 255 :=
  (blend_is_multiply_paste shirtGray designBlack 0 0 0 0 (by decide) (by decide)
    (by decide) (by decide) (by decide)).1 (by decide)

/-- C2 counterexample: `blend_design_with_shirt` pastes into its `shirt`
argument and returns that same object, so after the call the garment
argument holds the composited pixels: at this input its pixel (0,0) has
changed from gray to black. The garment input is modified by the call and
the returned image is the garment buffer itself, not a new image. -/
theorem blend_mutates_garment_counterexample :
    (blend_design_with_shirt shirtGray designBlack 0 0).pix 0 0 ≠ shirtGray.pix 0 0 := by
  decide

/-- C2 amended: the compositing operation writes through the garment
argument and returns it; the returned image has the garment's dimensions,
and every pixel outside the pasted design footprint keeps the garment's
original value (the graphic argument is never written to). -/
theorem blend_frame_outside_region (shirt design : Img) (x y : Int) :
    (blend_design_with_shirt shirt design x y).width = shirt.width ∧
    (blend_design_with_shirt shirt design x y).height = shirt.height ∧
    ∀ i j : Nat,
      ¬(x ≤ (j : Int) ∧ (j : Int) < x + design.width ∧
        y ≤ (i : Int) ∧ (i : Int) < y + design.height) →
      (blend_design_with_shirt shirt design x y).pix i j = shirt.pix i j := by
  refine ⟨rfl, rfl, ?_⟩
  intro i j hout
  unfold blend_design_with_shirt
  simp only
  rw [if_neg]
  intro hcon
  exact hout ⟨hcon.2.2.1, hcon.2.2.2.1, hcon.2.2.2.2.1, hcon.2.2.2.2.2⟩

/-- Witness for `blend_frame_outside_region`: pasting at (5, 5) leaves the
1×1 garment's pixel (0,0) unchanged. -/
theorem blend_frame_outside_region_witness :
    (blend_design_with_shirt shirtGray designBlack 5 5).pix 0 0 = shirtGray.pix 0 0 :=
  (blend_frame_outside_region shirtGray designBlack 5 5).2.2 0 0 (by decide)

/-! ## BatchPipeline (lines 184 to 236 of the generate-mockups button) -/

/-- The inner loop over shirt templates (lines 195 to 236): each template is
decoded (`Image.open(shirt_file).convert("RGBA")`), sent through the
five-stage per-pair pipeline — abstracted here by `process`, which receives
the shirt's name (it selects the model/plain configuration), the decoded
design, and the decoded shirt — and the result is written to the archive
under `f"{graphic_name}_{color_name}_tee.png"`. A file whose decoding
raises is modelled by `none`; the loop has no handler, so the exception
propagates and aborts the whole batch, which `Except.error` records
together with the failing file's identifier. -/
def shirtLoop (process : String → Img → Img → Img) (gname : String) (g : Img) :
    List (String × Option Img) → Except String (List (String × Img))
  | [] => Except.ok []
  | (sname, os) :: rest =>
    match os with
    | none => Except.error sname
    | some s =>
      match shirtLoop process gname g rest with
      | Except.error e => Except.error e
      | Except.ok rs =>
          Except.ok ((gname ++ "_" ++ sname ++ "_tee.png", process sname g s) :: rs)

/-- The outer loop over the selected designs (lines 190 to 236): each design
is decoded (`Image.open(design_file).convert("RGBA")`) and the shirt loop
runs for it; the results of all pairs accumulate in graphic-major order. As
in `shirtLoop`, a decode failure anywhere aborts the whole
`with zipfile.ZipFile` block and no archive is produced. -/
def generateMockups (process : String → Img → Img → Img) :
    List (String × Option Img) → List (String × Option Img) →
      Except String (List (String × Img))
  | [], _ => Except.ok []
  | (gname, og) :: rest, shirts =>
    match og with
    | none => Except.error gname
    | some g =>
      match shirtLoop process gname g shirts with
      | Except.error e => Except.error e
      | Except.ok rs =>
        match generateMockups process rest shirts with
        | Except.error e => Except.error e
        | Except.ok rs2 => Except.ok (rs ++ rs2)

/-- Inputs whose every file decodes successfully. -/
def decoded (l : List (String × Img)) : List (String × Option Img) :=
  l.map (fun p => (p.1, some p.2))

theorem decoded_cons (p : String × Img) (l : List (String × Img)) :
    decoded (p :: l) = (p.1, some p.2) :: decoded l := rfl

theorem shirtLoop_decoded (process : String → Img → Img → Img) (gname : String)
    (g : Img) (shirts : List (String × Img)) :
    shirtLoop process gname g (decoded shirts) =
      Except.ok (shirts.map (fun sp =>
        (gname ++ "_" ++ sp.1 ++ "_tee.png", process sp.1 g sp.2))) := by
  induction shirts with
  | nil => rfl
  | cons sp rest ih =>
    obtain ⟨sname, s⟩ := sp
    rw [decoded_cons]
    simp only [shirtLoop, List.map_cons]
    rw [ih]

/-- C9: on inputs whose every file decodes, the batch emits exactly one
result per (graphic, garment) pair, in graphic-major nested order — all
garments of one graphic contiguous, garments in their given order within
each graphic — and each result is named
`{graphicName}_{garmentName}_tee.png`. -/
theorem batch_order_and_naming (process : String → Img → Img → Img)
    (designs shirts : List (String × Img)) :
    generateMockups process (decoded designs) (decoded shirts) =
      Except.ok (designs.flatMap (fun gp =>
        shirts.map (fun sp =>
          (gp.1 ++ "_" ++ sp.1 ++ "_tee.png", process sp.1 gp.2 sp.2)))) := by
  induction designs with
  | nil => rfl
  | cons gp rest ih =>
    obtain ⟨gname, g⟩ := gp
    rw [decoded_cons]
    simp only [generateMockups, List.flatMap_cons]
    rw [shirtLoop_decoded process gname g shirts, ih]

/-- The per-pair processing used by the concrete batch runs below (the
image content of the results is irrelevant to the loop structure). -/
def procCE : String → Img → Img → Img := fun _ g _ => g

theorem shirtLoop_first_failure (process : String → Img → Img → Img)
    (gname : String) (g : Img) (bad : String)
    (post : List (String × Option Img)) :
    ∀ pre : List (String × Option Img), (∀ q ∈ pre, (q.2).isSome = true) →
      shirtLoop process gname g (pre ++ (bad, none) :: post) = Except.error bad := by
  intro pre
  induction pre with
  | nil => intro _; rfl
  | cons q rest ih =>
    intro hpre
    obtain ⟨qn, qo⟩ := q
    have hq : qo.isSome = true := hpre (qn, qo) (List.mem_cons_self _ _)
    obtain ⟨s, rfl⟩ : ∃ s, qo = some s := by
      cases qo with
      | none => simp at hq
      | some s => exact ⟨s, rfl⟩
    have ih2 := ih (fun r hr => hpre r (List.mem_cons_of_mem _ hr))
    simp only [List.cons_append, shirtLoop, List.append_eq]
    rw [ih2]

/-- C3 amended: when a garment template in the list fails to decode (with
every template before it decoding fine) the batch run aborts with that
template's identifier; the failing pair is not skipped and recorded, and no
results at all are produced — the decode exception propagates out of the
loops. -/
theorem batch_decode_failure_aborts (process : String → Img → Img → Img)
    (gname : String) (g : Img) (designRest : List (String × Option Img))
    (pre post : List (String × Option Img)) (bad : String)
    (hpre : ∀ q ∈ pre, (q.2).isSome = true) :
    generateMockups process ((gname, some g) :: designRest)
      (pre ++ (bad, none) :: post) = Except.error bad := by
  simp only [generateMockups]
  rw [shirtLoop_first_failure process gname g bad post pre hpre]

/-- Witness for `batch_decode_failure_aborts`: one design, three garment
templates of which the second fails to decode; the run aborts naming it. -/
theorem batch_decode_failure_aborts_witness :
    generateMockups procCE [("g1", some designBlack)]
      ([("s1", some shirtBlack)] ++ ("s2", none) :: [("s3", some shirtBlack)]) =
      Except.error "s2" :=
  batch_decode_failure_aborts procCE "g1" designBlack []
    [("s1", some shirtBlack)] [("s3", some shirtBlack)] "s2" (by simp)

/-- C3 counterexample: the 2 graphics × 3 garments batch of the spec's own
end-to-end property, with the second garment failing to decode. The claim
expects the other pairs to still produce their 4 results with the failure
recorded; the code instead aborts on the decode exception and produces no
result at all, only the error for file s2. -/
theorem batch_skip_and_report_counterexample :
    generateMockups procCE
      [("g1", some designBlack), ("g2", some designBlack)]
      [("s1", some shirtBlack), ("s2", none), ("s3", some shirtBlack)] =
      Except.error "s2" := rfl

/-! ## WrinkleWarper (lines 100 to 119, `apply_displacement_map`) -/

/-- Normalization of one endpoint of a Python slice `a[start:stop]` over an
axis of length `n`: a negative endpoint counts from the end of the axis,
and endpoints are clamped into `[0, n]`. -/
def pyIdx (n : Nat) (i : Int) : Nat :=
  if i < 0 then (i + n).toNat else min i.toNat n

/-- Length of the mathematical intersection of the half-open interval
`[a, b)` with the axis `[0, n)` — the "region cropped against the garment
bounds" the claim speaks about. -/
def cropLen (n : Nat) (a b : Int) : Nat :=
  (min b (n : Int) - max a 0).toNat

/-- OpenCV `BORDER_REFLECT` index folding (edge pixel duplicated):
`..., 1, 0 | 0, 1, ..., n-1 | n-1, n-2, ...`. -/
def reflectIdx (n : Nat) (i : Int) : Nat :=
  let m := i % (2 * (n : Int))
  if m < (n : Int) then m.toNat else (2 * (n : Int) - 1 - m).toNat

/-- One channel of `cv2.remap` with `INTER_LINEAR` and `BORDER_REFLECT`, in
exact rational arithmetic: bilinear interpolation of the four taps around
the sampling point `(u, v)` (`u` horizontal, `v` vertical), border indices
folded by reflection. -/
def bilinearVal (img : Img) (chan : RGBA → Nat) (u v : ℚ) : ℚ :=
  let x0 : Int := Int.floor u
  let y0 : Int := Int.floor v
  let tx : ℚ := u - (x0 : ℚ)
  let ty : ℚ := v - (y0 : ℚ)
  let tap : Int → Int → ℚ := fun a b =>
    (chan (img.pix (reflectIdx img.height a) (reflectIdx img.width b)) : ℚ)
  (1 - tx) * (1 - ty) * tap y0 x0 + tx * (1 - ty) * tap y0 (x0 + 1) +
    (1 - tx) * ty * tap (y0 + 1) x0 + tx * ty * tap (y0 + 1) (x0 + 1)

/-- Lines 100 to 119, `apply_displacement_map(shirt, design, x, y, intensity)`:
the shirt is converted to grayscale and normalized
(`np.array(shirt.convert("L")) / 255`), the NumPy slice `gray[y:y+h, x:x+w]`
is taken with Python slice semantics (negative endpoints count from the
end of the axis), and if the slice's shape is not exactly `(h, w)` the
design object is returned unchanged (the fail-safe at lines 106 to 107).
Otherwise the displacement `(crop - 0.5) * intensity` is added to the
identity grid in both axes and the RGBA design is resampled there by
`cv2.remap` with bilinear interpolation and reflected borders. The float
arithmetic is modelled exactly over the rationals, and the conversion back
to bytes rounds to the nearest integer (exact at the integer-valued
samples the theorems below evaluate). -/
def apply_displacement_map (shirt design : Img) (x y : Int) (intensity : Nat) : Img :=
  let w := design.width
  let h := design.height
  let ys := pyIdx shirt.height y
  let ye := pyIdx shirt.height (y + h)
  let xs := pyIdx shirt.width x
  let xe := pyIdx shirt.width (x + w)
  if ye - ys = h ∧ xe - xs = w then
    let disp : Nat → Nat → ℚ := fun i j =>
      ((pilLum (shirt.pix (ys + i) (xs + j)) : ℚ) / 255 - 1/2) * (intensity : ℚ)
    Img.mk w h (fun i j =>
      let u : ℚ := (j : ℚ) + disp i j
      let v : ℚ := (i : ℚ) + disp i j
      RGBA.mk
        (roundByte (bilinearVal design (fun p => p.r) u v))
        (roundByte (bilinearVal design (fun p => p.g) u v))
        (roundByte (bilinearVal design (fun p => p.b) u v))
        (roundByte (bilinearVal design (fun p => p.a) u v)))
  else design

theorem reflectIdx_of_lt (n i : Nat) (h : i < n) : reflectIdx n (i : Int) = i := by
  unfold reflectIdx
  have hm : (i : Int) % (2 * (n : Int)) = (i : Int) :=
    Int.emod_eq_of_lt (by omega) (by omega)
  simp only [hm]
  rw [if_pos (by omega)]
  omega

theorem bilinearVal_int (img : Img) (chan : RGBA → Nat) (p q : Nat) :
    bilinearVal img chan (p : ℚ) (q : ℚ) =
      (chan (img.pix (reflectIdx img.height (q : Int)) (reflectIdx img.width (p : Int))) : ℚ) := by
  unfold bilinearVal
  rw [Int.floor_natCast, Int.floor_natCast]
  simp [sub_self]

theorem roundByte_natCast (c : Nat) (hc : c ≤ 255) : roundByte (c : ℚ) = c := by
  unfold roundByte
  have hfl : Int.floor ((c : ℚ) + 1/2) = (c : ℤ) := by
    rw [Int.floor_eq_iff]
    constructor
    · push_cast; linarith
    · push_cast; linarith
  rw [hfl]
  have hc2 : (c : ℤ) ≤ 255 := by exact_mod_cast hc
  rw [min_eq_right hc2, max_eq_right (by positivity : (0 : ℤ) ≤ (c : ℤ))]
  exact Int.toNat_natCast c

theorem pyIdx_natCast (n m : Nat) : pyIdx n (m : Int) = min m n := by
  unfold pyIdx
  rw [if_neg (by omega)]
  simp

/-- C8: with intensity 0 the displacement is zero at every pixel, the remap
grid is the identity grid, and the warp returns the placed graphic
pixel-for-pixel, for every in-bounds placement. -/
theorem warp_zero_intensity_identity (shirt design : Img) (x y : Nat)
    (hx : x + design.width ≤ shirt.width) (hy : y + design.height ≤ shirt.height)
    (hwf : design.Wf) :
    Img.eqOn (apply_displacement_map shirt design (x : Int) (y : Int) 0) design := by
  simp only [apply_displacement_map]
  have hcast1 : (y : Int) + (design.height : Int) = ((y + design.height : Nat) : Int) := by
    push_cast; ring
  have hcast2 : (x : Int) + (design.width : Int) = ((x + design.width : Nat) : Int) := by
    push_cast; ring
  rw [hcast1, hcast2, pyIdx_natCast, pyIdx_natCast, pyIdx_natCast, pyIdx_natCast]
  rw [if_pos (by omega)]
  refine ⟨rfl, rfl, ?_⟩
  intro i hi j hj
  simp only [Nat.cast_zero, mul_zero, add_zero]
  rw [bilinearVal_int, bilinearVal_int, bilinearVal_int, bilinearVal_int]
  rw [reflectIdx_of_lt design.height i hi, reflectIdx_of_lt design.width j hj]
  obtain ⟨hr, hg, hb, ha⟩ := hwf i hi j hj
  rw [roundByte_natCast _ hr, roundByte_natCast _ hg, roundByte_natCast _ hb,
    roundByte_natCast _ ha]

/-- A 10×10 all-white opaque garment. -/
def shirtWhite10 : Img := Img.mk 10 10 (fun _ _ => RGBA.mk 255 255 255 255)

/-- A 2×2 graphic with four distinct opaque pixels. -/
def designQuad : Img := Img.mk 2 2 (fun i j =>
  if i = 0 ∧ j = 0 then RGBA.mk 255 0 0 255
  else if i = 0 ∧ j = 1 then RGBA.mk 0 255 0 255
  else if i = 1 ∧ j = 0 then RGBA.mk 255 255 0 255
  else RGBA.mk 0 0 255 255)

/-- Witness for `warp_zero_intensity_identity`: warping the 2×2 graphic at
the origin of the 10×10 garment with intensity 0 returns it unchanged. -/
theorem warp_zero_intensity_identity_witness :
    Img.eqOn (apply_displacement_map shirtWhite10 designQuad ((0 : Nat) : Int)
      ((0 : Nat) : Int) 0) designQuad :=
  warp_zero_intensity_identity shirtWhite10 designQuad 0 0 (by decide) (by decide)
    (by decide)

theorem Img.eqOn_refl (img : Img) : Img.eqOn img img :=
  ⟨rfl, rfl, fun _ _ _ _ => rfl⟩

theorem pyIdx_sub_eq_cropLen (n : Nat) (a : Int) (len : Nat) (ha : 0 ≤ a) :
    pyIdx n (a + len) - pyIdx n a = cropLen n a (a + len) := by
  unfold pyIdx cropLen
  rw [if_neg (by omega), if_neg (by omega)]
  omega

/-- C5 amended: for nonnegative placements the wrinkle warp behaves as the
claim says: (a) whenever the region `[y, y+h) × [x, x+w)` cropped against
the garment bounds does not exactly match the graphic's dimensions, the
graphic is returned unchanged; and (b) the warp reads the garment's
luminance only inside that region — two garments of equal dimensions that
agree there produce identical warps. For negative placements this fails:
NumPy's negative slice indices select a window from the opposite edge of
the garment (see the counterexample). -/
theorem warp_region_and_fallback (shirt shirtB design : Img) (x y : Int)
    (intensity : Nat) (hx : 0 ≤ x) (hy : 0 ≤ y) :
    (¬(cropLen shirt.height y (y + design.height) = design.height ∧
        cropLen shirt.width x (x + design.width) = design.width) →
      apply_displacement_map shirt design x y intensity = design) ∧
    (shirt.width = shirtB.width → shirt.height = shirtB.height →
      (∀ i j : Nat, y ≤ (i : Int) → (i : Int) < y + design.height →
        x ≤ (j : Int) → (j : Int) < x + design.width →
        shirt.pix i j = shirtB.pix i j) →
      Img.eqOn (apply_displacement_map shirt design x y intensity)
        (apply_displacement_map shirtB design x y intensity)) := by
  have hh := pyIdx_sub_eq_cropLen shirt.height y design.height hy
  have hw := pyIdx_sub_eq_cropLen shirt.width x design.width hx
  constructor
  · intro hmis
    simp only [apply_displacement_map]
    rw [if_neg]
    intro hcon
    exact hmis ⟨hh.symm.trans hcon.1, hw.symm.trans hcon.2⟩
  · intro hW hH hagree
    simp only [apply_displacement_map]
    by_cases hcond :
        pyIdx shirt.height (y + (design.height : Int)) - pyIdx shirt.height y =
            design.height ∧
          pyIdx shirt.width (x + (design.width : Int)) - pyIdx shirt.width x =
            design.width
    · have hcondB :
          pyIdx shirtB.height (y + (design.height : Int)) - pyIdx shirtB.height y =
              design.height ∧
            pyIdx shirtB.width (x + (design.width : Int)) - pyIdx shirtB.width x =
              design.width := by
        rw [← hW, ← hH]; exact hcond
      rw [if_pos hcond, if_pos hcondB]
      refine ⟨rfl, rfl, ?_⟩
      intro i hi j hj
      dsimp only at hi hj ⊢
      have e1 : pyIdx shirt.height y = min y.toNat shirt.height := by
        unfold pyIdx; rw [if_neg (by omega)]
      have e2 : pyIdx shirt.height (y + (design.height : Int)) =
          min (y + (design.height : Int)).toNat shirt.height := by
        unfold pyIdx; rw [if_neg (by omega)]
      have e3 : pyIdx shirt.width x = min x.toNat shirt.width := by
        unfold pyIdx; rw [if_neg (by omega)]
      have e4 : pyIdx shirt.width (x + (design.width : Int)) =
          min (x + (design.width : Int)).toNat shirt.width := by
        unfold pyIdx; rw [if_neg (by omega)]
      have hc1 := hcond.1
      have hc2 := hcond.2
      rw [e1, e2] at hc1
      rw [e3, e4] at hc2
      have hb1 : y ≤ ((pyIdx shirt.height y + i : Nat) : Int) ∧
          ((pyIdx shirt.height y + i : Nat) : Int) < y + design.height := by
        rw [e1]; push_cast; omega
      have hb2 : x ≤ ((pyIdx shirt.width x + j : Nat) : Int) ∧
          ((pyIdx shirt.width x + j : Nat) : Int) < x + design.width := by
        rw [e3]; push_cast; omega
      have hys : pyIdx shirtB.height y = pyIdx shirt.height y := by rw [hH]
      have hxs : pyIdx shirtB.width x = pyIdx shirt.width x := by rw [hW]
      have hpixeq : shirt.pix (pyIdx shirt.height y + i) (pyIdx shirt.width x + j) =
          shirtB.pix (pyIdx shirt.height y + i) (pyIdx shirt.width x + j) :=
        hagree (pyIdx shirt.height y + i) (pyIdx shirt.width x + j)
          hb1.1 hb1.2 hb2.1 hb2.2
      simp only [hys, hxs, hpixeq]
    · have hcondB :
          ¬(pyIdx shirtB.height (y + (design.height : Int)) - pyIdx shirtB.height y =
              design.height ∧
            pyIdx shirtB.width (x + (design.width : Int)) - pyIdx shirtB.width x =
              design.width) := by
        rw [← hW, ← hH]; exact hcond
      rw [if_neg hcond, if_neg hcondB]
      exact Img.eqOn_refl design

/-- Witness for `warp_region_and_fallback`: placing the 2×2 graphic at
(20, 20), beyond the 10×10 garment, gives an empty cropped region and the
warp returns the graphic unchanged. -/
theorem warp_region_and_fallback_witness :
    apply_displacement_map shirtWhite10 designQuad 20 20 2 = designQuad :=
  (warp_region_and_fallback shirtWhite10 shirtWhite10 designQuad 20 20 2
    (by decide) (by decide)).1 (by decide)

/-- C5 counterexample: at placement (-4, -4) on the 10×10 garment with the
2×2 graphic, the region `[-4, -2) × [-4, -2)` cropped against the garment
bounds is empty, so its dimensions do not match the graphic's and the claim
requires the graphic back unchanged. But NumPy's negative slice indices
make `gray[-4:-2, -4:-2]` the in-bounds window `[6, 8) × [6, 8)`, the shape
check passes, and with intensity 2 over the all-white garment the
displacement is exactly 1, so the warp shifts the graphic: output pixel
(0,0) is input pixel (1,1), not the unchanged input. -/
theorem warp_negative_placement_counterexample :
    cropLen shirtWhite10.height (-4) (-4 + (designQuad.height : Int)) = 0 ∧
    (apply_displacement_map shirtWhite10 designQuad (-4) (-4) 2).pix 0 0 =
      designQuad.pix 1 1 ∧
    (apply_displacement_map shirtWhite10 designQuad (-4) (-4) 2).pix 0 0 ≠
      designQuad.pix 0 0 := by
  have hval : ∀ a b i : Nat,
      ((i : Nat) : ℚ) + ((pilLum (shirtWhite10.pix a b) : ℚ) / 255 - 1/2) *
        ((2 : Nat) : ℚ) = ((i + 1 : Nat) : ℚ) := by
    intro a b i
    have : pilLum (shirtWhite10.pix a b) = 255 := by
      simp only [shirtWhite10]
      decide
    rw [this]
    push_cast
    norm_num
  have h2 : (apply_displacement_map shirtWhite10 designQuad (-4) (-4) 2).pix 0 0 =
      designQuad.pix 1 1 := by
    simp only [apply_displacement_map]
    rw [if_pos (by decide)]
    dsimp only
    rw [hval _ _ 0]
    rw [bilinearVal_int, bilinearVal_int, bilinearVal_int, bilinearVal_int]
    rw [reflectIdx_of_lt designQuad.height 1 (by decide),
      reflectIdx_of_lt designQuad.width 1 (by decide)]
    rw [roundByte_natCast _ (by decide), roundByte_natCast _ (by decide),
      roundByte_natCast _ (by decide), roundByte_natCast _ (by decide)]
  exact ⟨by decide, h2, by rw [h2]; decide⟩

/-! ## GeometricTransformer (lines 86 to 97, `apply_skew`) -/

/-- PIL's bicubic interpolation kernel (the `a = -1/2` cubic):
`1.5|t|^3 - 2.5|t|^2 + 1` for `|t| ≤ 1`,
`-0.5|t|^3 + 2.5|t|^2 - 4|t| + 2` for `1 < |t| < 2`, else 0. -/
def cubicKernel (t : ℚ) : ℚ :=
  if |t| ≤ 1 then 3/2 * |t|^3 - 5/2 * |t|^2 + 1
  else if |t| < 2 then -1/2 * |t|^3 + 5/2 * |t|^2 - 4 * |t| + 2
  else 0

/-- One 4-tap pass of the separable bicubic filter at fractional offset
`t`, taps at relative integer offsets -1, 0, 1, 2. -/
def cubicRow (f : Int → ℚ) (t : ℚ) : ℚ :=
  cubicKernel (t + 1) * f (-1) + cubicKernel t * f 0 +
    cubicKernel (t - 1) * f 1 + cubicKernel (t - 2) * f 2

/-- Index clamped into the valid range of an axis of length `n` (PIL clamps
edge taps when interpolating near the border). -/
def clampIdx (n : Nat) (i : Int) : Nat :=
  (min i ((n : Int) - 1)).toNat

/-- Bicubic sample of one channel at source position `(u, v)`
(`u` horizontal, `v` vertical), in exact rational arithmetic. -/
def bicubicVal (img : Img) (chan : RGBA → Nat) (u v : ℚ) : ℚ :=
  let x0 : Int := Int.floor u
  let y0 : Int := Int.floor v
  let tx : ℚ := u - (x0 : ℚ)
  let ty : ℚ := v - (y0 : ℚ)
  cubicRow (fun a =>
    cubicRow (fun b =>
      (chan (img.pix (clampIdx img.height (y0 + a)) (clampIdx img.width (x0 + b))) : ℚ))
      tx) ty

/-- PIL's conversion of an interpolated value back to a byte (Geometry.c):
clip to `[0, 255]`, truncating in between; exact on byte-valued inputs. -/
def clip8 (q : ℚ) : Nat :=
  if q ≤ 0 then 0 else if 255 ≤ q then 255 else (Int.floor q).toNat

/-- Lines 86 to 97, `apply_skew(image, skew_x_deg, skew_y_deg)`:
`image.transform` with the inverse-mapping affine matrix
`(1, skew_x, 0, skew_y, 1, 0)` onto a canvas of the input's size, bicubic
resampling, and fully transparent fill `(0, 0, 0, 0)` for samples outside
the source. `skewX` and `skewY` are the already-computed shear coefficients
`tan(radians(skew_x_deg))` and `tan(radians(skew_y_deg))`; at 0 degrees
both are exactly 0. Output pixel `(column x, row y)` samples the input at
`(x + skewX * y, skewY * x + y)`. -/
def apply_skew (image : Img) (skewX skewY : ℚ) : Img :=
  Img.mk image.width image.height (fun i j =>
    let u : ℚ := (j : ℚ) + skewX * (i : ℚ)
    let v : ℚ := skewY * (j : ℚ) + (i : ℚ)
    if 0 ≤ u ∧ u ≤ (image.width : ℚ) - 1 ∧ 0 ≤ v ∧ v ≤ (image.height : ℚ) - 1 then
      RGBA.mk
        (clip8 (bicubicVal image (fun p => p.r) u v))
        (clip8 (bicubicVal image (fun p => p.g) u v))
        (clip8 (bicubicVal image (fun p => p.b) u v))
        (clip8 (bicubicVal image (fun p => p.a) u v))
    else RGBA.mk 0 0 0 0)

theorem cubicKernel_zero : cubicKernel 0 = 1 := by norm_num [cubicKernel]

theorem cubicKernel_one : cubicKernel 1 = 0 := by norm_num [cubicKernel]

theorem cubicKernel_neg_one : cubicKernel (-1) = 0 := by norm_num [cubicKernel]

theorem cubicKernel_two : cubicKernel 2 = 0 := by norm_num [cubicKernel]

theorem cubicKernel_neg_two : cubicKernel (-2) = 0 := by norm_num [cubicKernel]

theorem cubicRow_zero (f : Int → ℚ) : cubicRow f 0 = f 0 := by
  unfold cubicRow
  norm_num [cubicKernel_zero, cubicKernel_one, cubicKernel_neg_one, cubicKernel_neg_two]

theorem bicubicVal_int (img : Img) (chan : RGBA → Nat) (p q : Nat) :
    bicubicVal img chan (p : ℚ) (q : ℚ) =
      (chan (img.pix (clampIdx img.height (q : Int)) (clampIdx img.width (p : Int))) : ℚ) := by
  simp only [bicubicVal]
  rw [Int.floor_natCast, Int.floor_natCast]
  simp [sub_self, cubicRow_zero]

theorem clampIdx_of_lt (n i : Nat) (h : i < n) : clampIdx n (i : Int) = i := by
  unfold clampIdx
  omega

theorem clip8_natCast (c : Nat) (hc : c ≤ 255) : clip8 (c : ℚ) = c := by
  unfold clip8
  rcases Nat.eq_zero_or_pos c with h0 | h0
  · subst h0; simp
  · have hpos : ¬((c : ℚ) ≤ 0) := by
      push_neg
      exact_mod_cast h0
    by_cases h255 : (255 : ℚ) ≤ (c : ℚ)
    · have hc255 : c = 255 := le_antisymm hc (by exact_mod_cast h255)
      subst hc255
      rw [if_neg hpos, if_pos h255]
    · rw [if_neg hpos, if_neg h255, Int.floor_natCast, Int.toNat_natCast]

/-- C7: with both skew coefficients equal to 0 (a 0-degree shear gives
`tan(radians(0)) = 0` exactly) the skew is the identity transform: the
output has the input's exact pixel dimensions and every in-bounds output
pixel equals the corresponding input pixel. -/
theorem skew_zero_identity (img : Img) (hwf : img.Wf) :
    Img.eqOn (apply_skew img 0 0) img := by
  refine ⟨rfl, rfl, ?_⟩
  intro i hi j hj
  simp only [apply_skew]
  have hu : ((j : ℚ) + 0 * (i : ℚ)) = ((j : Nat) : ℚ) := by ring
  have hv : ((0 : ℚ) * (j : ℚ) + (i : ℚ)) = ((i : Nat) : ℚ) := by ring
  rw [hu, hv]
  have hwq : (j : ℚ) ≤ (img.width : ℚ) - 1 := by
    have : (j : ℚ) + 1 ≤ (img.width : ℚ) := by exact_mod_cast hj
    linarith
  have hhq : (i : ℚ) ≤ (img.height : ℚ) - 1 := by
    have : (i : ℚ) + 1 ≤ (img.height : ℚ) := by exact_mod_cast hi
    linarith
  rw [if_pos ⟨by positivity, hwq, by positivity, hhq⟩]
  rw [bicubicVal_int, bicubicVal_int, bicubicVal_int, bicubicVal_int]
  rw [clampIdx_of_lt img.height i hi, clampIdx_of_lt img.width j hj]
  obtain ⟨hr, hg, hb, ha⟩ := hwf i hi j hj
  rw [clip8_natCast _ hr, clip8_natCast _ hg, clip8_natCast _ hb, clip8_natCast _ ha]

/-- Witness for `skew_zero_identity` at the concrete 2×2 graphic. -/
theorem skew_zero_identity_witness :
    Img.eqOn (apply_skew designQuad 0 0) designQuad :=
  skew_zero_identity designQuad (by decide)
